import Mathlib

/-!
Shallow embedding of the moonblokz-probe bridge process (Rust) in Lean 4,
together with theorems settling the frozen claims C1..C10 about it.

Conventions used throughout:
* machine integers (`u32`, `u64`, `usize`) are modelled as `Nat`; where the
  source masks or can overflow, the bound is made explicit;
* fallible operations return `Option`/`Except`; a Rust panic (e.g. `%` by
  zero) is modelled as `none`;
* I/O loops are modelled as pure functions over an explicit list of event
  outcomes, and filesystem / process side effects are recorded as an explicit
  action trace.
-/

set_option maxRecDepth 10000

/-! ## Shared helpers: character / number parsing and formatting

These model Rust's `u32::from_str_radix(s, 16)`, `str::parse::<u32>()`,
`format!("{:08x}", n)`, `str::trim_start_matches` / `trim_end_matches`.
-/

/-- Value of a hexadecimal digit character, as in Rust `char::to_digit(16)`. -/
def hexDigitVal (c : Char) : Option Nat :=
  if '0' ≤ c ∧ c ≤ '9' then some (c.toNat - 48)
  else if 'a' ≤ c ∧ c ≤ 'f' then some (c.toNat - 87)
  else if 'A' ≤ c ∧ c ≤ 'F' then some (c.toNat - 55)
  else none

/-- Value of a decimal digit character, as in Rust `char::to_digit(10)`. -/
def decDigitVal (c : Char) : Option Nat :=
  if '0' ≤ c ∧ c ≤ '9' then some (c.toNat - 48) else none

/-- The digit-accumulation loop of `u32::from_str_radix(_, 16)`: each step
multiplies by the radix and adds the digit, failing on a non-digit or on
`u32` overflow (4294967295 is `u32::MAX`). -/
def parseHexCore : List Char → Nat → Option Nat
  | [], acc => some acc
  | c :: cs, acc =>
    match hexDigitVal c with
    | none => none
    | some d =>
      let acc' := acc * 16 + d
      if acc' ≤ 4294967295 then parseHexCore cs acc' else none

/-- The digit-accumulation loop of `str::parse::<u32>()` (radix 10). -/
def parseDecCore : List Char → Nat → Option Nat
  | [], acc => some acc
  | c :: cs, acc =>
    match decDigitVal c with
    | none => none
    | some d =>
      let acc' := acc * 10 + d
      if acc' ≤ 4294967295 then parseDecCore cs acc' else none

/-- `u32::from_str_radix(s, 16)`: optional leading `+`, then a nonempty
sequence of hex digits, with overflow checking. -/
def fromStrRadix16 (s : String) : Option Nat :=
  let ds := if s.data.head? = some '+' then s.data.tail else s.data
  if ds.isEmpty then none else parseHexCore ds 0

/-- `s.parse::<u32>()`: optional leading `+`, then a nonempty sequence of
decimal digits, with overflow checking. -/
def parse_u32 (s : String) : Option Nat :=
  let ds := if s.data.head? = some '+' then s.data.tail else s.data
  if ds.isEmpty then none else parseDecCore ds 0

/-- Lowercase hexadecimal digit character for a value `d < 16`
(`0`..`9`, `a`..`f`), as produced by Rust's `{:x}` formatting. -/
def hexChar (d : Nat) : Char :=
  if d < 10 then Char.ofNat (48 + d) else Char.ofNat (87 + d)

/-- Least-significant-first hexadecimal digits of `n` (empty for 0), with a
structural fuel so that it computes; `fuel ≥ n` is always enough. -/
def natHexDigitsRev : Nat → Nat → List Nat
  | 0, _ => []
  | fuel + 1, n => if n = 0 then [] else n % 16 :: natHexDigitsRev fuel (n / 16)

/-- Numeric value of a least-significant-first base-16 digit list. -/
def ofDigitsLSB : List Nat → Nat
  | [] => 0
  | d :: ds => d + 16 * ofDigitsLSB ds

/-- `format!("{:08x}", n)`: minimal lowercase hex digits of `n`,
left-padded with `0` to width 8. -/
def toHex8 (n : Nat) : String :=
  let cs := ((natHexDigitsRev n n).reverse).map hexChar
  ⟨List.replicate (8 - cs.length) '0' ++ cs⟩

/-- One step of `str::trim_start_matches(p)`: repeatedly strip the prefix
`p` while it matches; the fuel is the length of the subject string. -/
def trimStartAux (p : List Char) : Nat → List Char → List Char
  | 0, s => s
  | fuel + 1, s =>
    if !p.isEmpty && p.isPrefixOf s then trimStartAux p fuel (s.drop p.length) else s

/-- `s.trim_start_matches(p)`: repeatedly removes the prefix `p`. -/
def trimStartMatches (s p : String) : String :=
  ⟨trimStartAux p.data s.data.length s.data⟩

/-- `s.trim_end_matches(p)`: repeatedly removes the suffix `p`. -/
def trimEndMatches (s p : String) : String :=
  ⟨(trimStartAux p.data.reverse s.data.length s.data.reverse).reverse⟩

/-- Rust `str::contains(pat)`: substring containment. -/
def strContains (s pat : String) : Bool :=
  decide (pat.data <:+: s.data)

/-- Rust `str::starts_with(p)`, on the character sequence. -/
def rustStartsWith (s p : String) : Bool :=
  p.data.isPrefixOf s.data

/-- Rust `str::ends_with(p)`, on the character sequence. -/
def rustEndsWith (s p : String) : Bool :=
  p.data.isSuffixOf s.data

/-- Rust `str::trim_end()`: strip trailing whitespace. -/
def rustTrimEnd (s : String) : String :=
  ⟨(s.data.reverse.dropWhile Char.isWhitespace).reverse⟩

/-! ## Data model (`src/types.rs`)

`LogEntry`, `LogBuffer` (a `VecDeque` with FIFO eviction), `UpdateInterval`
and `VersionInfo`, translated field by field.
-/

/-- `types.rs`: one captured log line. -/
structure LogEntry where
  timestamp : String
  message : String
deriving DecidableEq, Repr

/-- `types.rs`: bounded buffer over a `VecDeque<LogEntry>`. -/
structure LogBuffer where
  entries : List LogEntry
  max_size : Nat
deriving DecidableEq, Repr

/-- `LogBuffer::new(max_size)`. -/
def LogBuffer.new (max_size : Nat) : LogBuffer := ⟨[], max_size⟩

/-- `LogBuffer::push`: `if self.entries.len() >= self.max_size
{ self.entries.pop_front(); } self.entries.push_back(entry);`. -/
def LogBuffer.push (b : LogBuffer) (e : LogEntry) : LogBuffer :=
  if b.max_size ≤ b.entries.length then ⟨b.entries.tail ++ [e], b.max_size⟩
  else ⟨b.entries ++ [e], b.max_size⟩

/-- `LogBuffer::drain`: returns all entries and empties the buffer. -/
def LogBuffer.drain (b : LogBuffer) : List LogEntry × LogBuffer :=
  (b.entries, ⟨[], b.max_size⟩)

/-- `LogBuffer::len`. -/
def LogBuffer.len (b : LogBuffer) : Nat := b.entries.length

/-- `types.rs`: upload schedule. Timestamps are modelled as integer seconds
(`DateTime<Utc>` instants); `u64` periods as `Nat`. -/
structure UpdateInterval where
  start_time : Option Int
  end_time : Option Int
  active_period : Nat
  inactive_period : Nat
  default_interval : Nat
deriving DecidableEq, Repr

/-- `UpdateInterval::get_current_interval`, with `Utc::now()` passed in as
the explicit argument `now`. Inside the window the source computes
`elapsed % (active_period + inactive_period)`; when that cycle length is 0
Rust's `%` panics, modelled here as `none`. -/
def UpdateInterval.get_current_interval (s : UpdateInterval) (now : Int) : Option Nat :=
  match s.start_time, s.end_time with
  | some start, some endt =>
    if start ≤ now ∧ now ≤ endt then
      let elapsed := (now - start).toNat
      let cycle := s.active_period + s.inactive_period
      if cycle = 0 then none
      else if elapsed % cycle < s.active_period then some s.active_period
      else some s.inactive_period
    else some s.default_interval
  | _, _ => some s.default_interval

/-- `types.rs` / `update_manager.rs`: remote version descriptor. -/
structure VersionInfo where
  version : Nat
  crc32 : String
deriving DecidableEq, Repr

/-! ## Telemetry sync (`src/telemetry_sync.rs`)

`sync_telemetry` drains the buffer, POSTs when nonempty, and on a non-200
status pushes the snapshot back (reversed) with `LogBuffer::push`. Entries
appended concurrently while the HTTP request is in flight are modelled by
the `appends` argument, applied between the drain and the re-queue.
-/

/-- Observable outcome of one `sync_telemetry` cycle. -/
structure SyncResult where
  didPost : Bool
  finalBuffer : LogBuffer
  ok : Bool
deriving DecidableEq, Repr

/-- `telemetry_sync.rs::sync_telemetry`: early return when the buffer is
empty; otherwise drain, POST, and on non-200 push the drained entries back
in reverse iteration order (`logs.into_iter().rev()` with `push`). -/
def sync_telemetry (buf : LogBuffer) (appends : List LogEntry) (status : Nat) : SyncResult :=
  if buf.len = 0 then ⟨false, buf, true⟩
  else
    let drained := buf.drain
    let logs := drained.1
    let during := List.foldl LogBuffer.push drained.2 appends
    if status = 200 then ⟨true, during, true⟩
    else ⟨true, List.foldl LogBuffer.push during logs.reverse, false⟩

/-! ## Serial port manager (`src/usb_manager.rs`)

The duplex loop of `UsbManager::connect_and_handle` is modelled over an
explicit list of `select!` outcomes; `UsbManager::run` is modelled one
iteration at a time (`run_iteration`) and, for the backoff claim, as the
list of sleeps it performs over a list of per-connection outcomes
(`run_waits`).
-/

/-- `usb_manager.rs::UsbMessage`. -/
inductive UsbMessage where
  | LineReceived (s : String)
  | Connected
  | Disconnected
deriving DecidableEq, Repr

/-- One outcome of the `select!` in `connect_and_handle`: a read returning
EOF, a line, or an error; or an outbound command whose write succeeds or
fails. -/
inductive ReadEvent where
  | readEof
  | readLine (s : String)
  | readErr
  | sendCmd (c : String) (ok : Bool)
deriving DecidableEq, Repr

/-- `usb_manager.rs`: `INITIAL_BACKOFF_MS`. -/
def INITIAL_BACKOFF_MS : Nat := 1000

/-- `usb_manager.rs`: `MAX_BACKOFF_MS`. -/
def MAX_BACKOFF_MS : Nat := 60000

/-- The body of `connect_and_handle`'s loop: messages sent to consumers and
the loop result (`some true` = returned `Ok` via the EOF `break`,
`some false` = returned `Err`, `none` = the event list ended with the loop
still running). Lines are trimmed of trailing whitespace and empty lines
are discarded. -/
def handleEvents : List ReadEvent → List UsbMessage × Option Bool
  | [] => ([], none)
  | ReadEvent.readEof :: _ => ([], some true)
  | ReadEvent.readLine s :: rest =>
    let line := rustTrimEnd s
    let msgs := if line.data.isEmpty then [] else [UsbMessage.LineReceived line]
    let r := handleEvents rest
    (msgs ++ r.1, r.2)
  | ReadEvent.readErr :: _ => ([], some false)
  | ReadEvent.sendCmd _ ok :: rest =>
    if ok then handleEvents rest else ([], some false)

/-- `usb_manager.rs::UsbManager::connect_and_handle` given the connection
succeeded: emits `Connected`, then runs the duplex loop. -/
def connect_and_handle (events : List ReadEvent) : List UsbMessage × Option Bool :=
  let r := handleEvents events
  (UsbMessage.Connected :: r.1, r.2)

/-- One iteration of `UsbManager::run`: on `Ok` from `connect_and_handle`
the backoff resets to `INITIAL_BACKOFF_MS` and nothing further is emitted;
on `Err` (including a failed connect, where no events are processed) a
`Disconnected` message is emitted and the backoff is doubled and capped.
Returns the messages emitted this iteration and the next backoff value. -/
def run_iteration (connectOk : Bool) (events : List ReadEvent) (backoff_ms : Nat) :
    Option (List UsbMessage × Nat) :=
  if connectOk then
    match connect_and_handle events with
    | (msgs, some true) => some (msgs, INITIAL_BACKOFF_MS)
    | (msgs, some false) =>
      some (msgs ++ [UsbMessage.Disconnected], min (backoff_ms * 2) MAX_BACKOFF_MS)
    | (_, none) => none
  else
    some ([UsbMessage.Disconnected], min (backoff_ms * 2) MAX_BACKOFF_MS)

/-- The sequence of sleeps `UsbManager::run` performs, given the outcome of
each successive `connect_and_handle` call (`true` = returned `Ok`,
`false` = returned `Err`): an `Ok` resets the backoff and sleeps nothing, an
`Err` sleeps the current backoff and then doubles it, capped at
`MAX_BACKOFF_MS`. The same loop appears in `usb_collector.rs::run`. -/
def run_waits : Nat → List Bool → List Nat
  | _, [] => []
  | _, true :: rest => run_waits INITIAL_BACKOFF_MS rest
  | b, false :: rest => b :: run_waits (min (b * 2) MAX_BACKOFF_MS) rest

/-- Events that keep `connect_and_handle`'s loop running: received lines and
successfully written commands. -/
def ReadEvent.nonTerminal : ReadEvent → Bool
  | ReadEvent.readLine _ => true
  | ReadEvent.sendCmd _ ok => ok
  | _ => false

/-- The result of one `connect_and_handle` call for a session described by
whether `open_native_async` succeeded (`s.1`) and, if so, the subsequent
duplex events (`s.2`): a failed open is an immediate `Err` (the `?` on the
open), otherwise the loop result — `some true` = returned `Ok` via the EOF
`break`, `some false` = returned `Err`, `none` = the loop never returns. -/
def session_result (s : Bool × List ReadEvent) : Option Bool :=
  if s.1 then (handleEvents s.2).2 else some false

/-- The sequence of sleeps `UsbManager::run` performs over a list of
sessions, tracking the backoff variable exactly as the source does: an `Ok`
return resets the backoff to `INITIAL_BACKOFF_MS` and sleeps nothing — and
this is the ONLY place the source resets it, so a successfully opened
connection that later dies with an I/O error does NOT reset the backoff —
while an `Err` return (failed open, or a connection ending in a read/write
error) sleeps the current backoff and then doubles it, capped at
`MAX_BACKOFF_MS`. A session that never ends stops the trace. The same loop
appears in `usb_collector.rs::run`. -/
def run_loop_waits : Nat → List (Bool × List ReadEvent) → List Nat
  | _, [] => []
  | b, s :: rest =>
    match session_result s with
    | some true => run_loop_waits INITIAL_BACKOFF_MS rest
    | some false => b :: run_loop_waits (min (b * 2) MAX_BACKOFF_MS) rest
    | none => []

/-! ## Command executor (`src/command_executor.rs`)

The `set_log_level` arm of `execute_command`, over the deserialized
`CommandParameters` (every field `serde(default)`, so absent fields are the
empty string / zero).
-/

/-- `command_executor.rs::CommandParameters` with serde defaults. -/
structure CommandParameters where
  start_time : String
  end_time : String
  active_period : Nat
  inactive_period : Nat
  level : String
  log_level : String
  value : String
  log_filter : String
  command : String
  sequence : Nat
deriving DecidableEq, Repr

/-- Rust `str::to_uppercase`, modelled character by character with
`Char.toUpper` (they agree on ASCII, the alphabet of the level names). -/
def rustToUppercase (s : String) : String :=
  ⟨s.data.map Char.toUpper⟩

/-- The `set_log_level` arm of `command_executor.rs::execute_command`:
prefer `log_level` when nonempty, else `level`; uppercase it and map
TRACE/DEBUG/INFO/WARN/ERROR to the serial directive, or `none` (a warning,
no serial write) for anything else. -/
def execute_set_log_level (params : CommandParameters) : Option String :=
  let level := if params.log_level ≠ "" then params.log_level else params.level
  let u := rustToUppercase level
  if u = "TRACE" then some "/LT"
  else if u = "DEBUG" then some "/LD"
  else if u = "INFO" then some "/LI"
  else if u = "WARN" then some "/LW"
  else if u = "ERROR" then some "/LE"
  else none

/-! ## Log collector (`src/log_collector.rs`) -/

/-- `log_collector.rs::is_valid_log_line`. -/
def is_valid_log_line (line : String) : Bool :=
  rustStartsWith line "[TRACE]"
    || rustStartsWith line "[DEBUG]"
    || rustStartsWith line "[INFO]"
    || rustStartsWith line "[WARN]"
    || rustStartsWith line "[ERROR]"

/-- The per-line body of `log_collector.rs::connect_and_read`: lines failing
`is_valid_log_line` are skipped before the timestamp is taken and the filter
is read; accepted lines are filtered (empty filter accepts all, otherwise
substring match) and pushed. `Utc::now().to_rfc3339()` is passed in as
`timestamp`. -/
def process_line (line timestamp filter : String) (log_buffer : LogBuffer) : LogBuffer :=
  if is_valid_log_line line then
    let entry : LogEntry := ⟨timestamp, line⟩
    let should_buffer := filter.data.isEmpty || strContains line filter
    if should_buffer then log_buffer.push entry else log_buffer
  else log_buffer

/-! ## CRC32 (`crc32fast::hash`)

Standard CRC-32 (IEEE 802.3): reflected polynomial `0xEDB88320`, initial
value `0xFFFFFFFF`, final xor `0xFFFFFFFF`, computed bit by bit.
-/

/-- One bit step of the reflected CRC-32: shift right, conditionally xor
the polynomial. -/
def crc32Step (c : Nat) : Nat :=
  if c % 2 = 1 then (c / 2) ^^^ 0xEDB88320 else c / 2

/-- `crc32fast::hash(bytes)`. Bytes are `u8`, hence the `% 256`. -/
def crc32fast_hash (data : List Nat) : Nat :=
  (data.foldl (fun c b => crc32Step^[8] (c ^^^ b % 256)) 0xFFFFFFFF) ^^^ 0xFFFFFFFF

/-! ## Update manager (`src/update_manager.rs`)

Filesystem and external-process side effects are recorded as `FsAction`
values; directory contents and external outcomes (bootloader discovery,
mount/copy/sync/unmount results) are explicit inputs.
-/

/-- A filesystem / process side effect performed by an update routine. -/
inductive FsAction where
  | createDirAll (path : String)
  | writeFile (path : String)
  | setPermissions (path : String)
  | removeFile (path : String)
  | renameFile (src dst : String)
  | copyFile (src dst : String)
  | sendSerial (cmd : String)
  | mountDev (dev mountPoint : String)
  | unmountDev (mountPoint : String)
  | syncFs
  | reboot
deriving DecidableEq, Repr

/-- Actions that install, deploy, or remove an artifact (file writes,
renames, copies, permission changes, removals, reboot); directory creation,
serial directives and mount bookkeeping are excluded. -/
def FsAction.installish : FsAction → Bool
  | FsAction.writeFile _ => true
  | FsAction.setPermissions _ => true
  | FsAction.removeFile _ => true
  | FsAction.renameFile _ _ => true
  | FsAction.copyFile _ _ => true
  | FsAction.reboot => true
  | _ => false

namespace UpdateManager

/-- The loop-body test of `update_manager.rs::get_current_node_version`:
for a `deployed/` filename, the version it yields, if any
(`moonblokz_*.uf2` pattern, trims, `parse::<u32>`). -/
def node_version_of_filename (f : String) : Option Nat :=
  if rustStartsWith f "moonblokz_" && rustEndsWith f ".uf2" then
    parse_u32 (trimEndMatches (trimStartMatches f "moonblokz_") ".uf2")
  else none

/-- The scan loop of `update_manager.rs::get_current_node_version`: returns
the version of the FIRST matching parseable filename (early `return`),
`0` if none matches. -/
def node_version_scan : List String → Nat
  | [] => 0
  | f :: rest =>
    match node_version_of_filename f with
    | some v => v
    | none => node_version_scan rest

/-- `update_manager.rs::get_current_node_version`: `fs::read_dir(DEPLOYED_DIR)`
fails when the directory is absent (`none`); otherwise scans the listing. -/
def get_current_node_version (deployed : Option (List String)) : Except String Nat :=
  match deployed with
  | none => Except.error "read_dir failed: deployed directory missing"
  | some listing => Except.ok (node_version_scan listing)

/-- Outcome of the version-check phase. -/
inductive CheckOutcome where
  | upToDate
  | proceed
deriving DecidableEq, Repr

/-- The decision prefix of `update_manager.rs::check_and_update_node_firmware`:
fetch remote version (given), read the current version, and return early
(`upToDate`, no download, no install) when `remote ≤ current`. -/
def check_node_firmware (remote_version : Nat) (deployed : Option (List String)) :
    Except String CheckOutcome :=
  match get_current_node_version deployed with
  | Except.error e => Except.error e
  | Except.ok current =>
    if remote_version ≤ current then Except.ok CheckOutcome.upToDate
    else Except.ok CheckOutcome.proceed

/-- Outcomes of the external steps of the node firmware install sequence. -/
structure NodeEnv where
  bootloader_device : Option String
  mount_ok : Bool
  copy_ok : Bool
  sync_ok : Bool
  unmount_ok : Bool
deriving DecidableEq, Repr

/-- `update_manager.rs::cleanup_old_node_versions`: remove every deployed
`moonblokz_*.uf2` whose parsed version is lower than `current`. -/
def cleanup_old_node_versions (listing : List String) (current : Nat) : List FsAction :=
  listing.filterMap fun f =>
    match node_version_of_filename f with
    | some v => if v < current then some (FsAction.removeFile ("deployed/" ++ f)) else none
    | none => none

/-- `update_manager.rs::perform_node_firmware_update` given the downloaded
bytes: CRC check (`u32::from_str_radix(crc32, 16)` against
`crc32fast::hash`), then write the temp image, send `/BS`, wait for the
bootloader device, mount, copy, sync, unmount, rename into `deployed/`, and
clean up lower versions. Returns the result and the action trace. -/
def perform_node_firmware_update (vi : VersionInfo) (firmware_data : List Nat)
    (env : NodeEnv) (listing : List String) : Except String Unit × List FsAction :=
  match fromStrRadix16 vi.crc32 with
  | none => (Except.error "Invalid CRC32 format in version.json", [])
  | some expected_crc =>
    if crc32fast_hash firmware_data ≠ expected_crc then
      (Except.error "CRC32 mismatch", [])
    else
      let temp_file := "/tmp/moonblokz_" ++ toString vi.version ++ ".uf2"
      let mount_point := "/tmp/rpi-rp2-bootloader"
      let a0 := [FsAction.writeFile temp_file, FsAction.sendSerial "/BS"]
      match env.bootloader_device with
      | none => (Except.error "Timeout waiting for bootloader device to appear", a0)
      | some dev =>
        let a1 := a0 ++ [FsAction.createDirAll mount_point]
        if !env.mount_ok then
          (Except.error "Failed to mount bootloader device", a1 ++ [FsAction.mountDev dev mount_point])
        else
          let a2 := a1 ++ [FsAction.mountDev dev mount_point]
          if !env.copy_ok then
            (Except.error "Failed to copy firmware to bootloader",
              a2 ++ [FsAction.copyFile temp_file (mount_point ++ "/firmware.uf2"),
                     FsAction.unmountDev mount_point])
          else
            let a3 := a2 ++ [FsAction.copyFile temp_file (mount_point ++ "/firmware.uf2")]
            if !env.sync_ok then (Except.error "Failed to sync filesystem", a3 ++ [FsAction.syncFs])
            else
              let a4 := a3 ++ [FsAction.syncFs]
              if !env.unmount_ok then
                (Except.error "Failed to unmount bootloader device",
                  a4 ++ [FsAction.unmountDev mount_point])
              else
                let deployed_file := "deployed/moonblokz_" ++ toString vi.version ++ ".uf2"
                let a5 := a4 ++ [FsAction.unmountDev mount_point,
                                 FsAction.createDirAll "deployed",
                                 FsAction.renameFile temp_file deployed_file]
                (Except.ok (), a5 ++ cleanup_old_node_versions listing vi.version)

end UpdateManager

/-! ## Node update, older variant (`src/node_update.rs`) -/

namespace NodeUpdate

/-- The loop-body test of `node_update.rs::get_current_node_version`:
identical filename pattern to the update-manager variant. -/
def node_version_of_filename (f : String) : Option Nat :=
  if rustStartsWith f "moonblokz_" && rustEndsWith f ".uf2" then
    parse_u32 (trimEndMatches (trimStartMatches f "moonblokz_") ".uf2")
  else none

/-- `node_update.rs::get_current_node_version`: when `deployed/` is absent it
is created and the version is 0; otherwise the MAXIMUM parseable version
over the listing (`max_version = max_version.max(version)`), 0 if none. -/
def get_current_node_version (dirExists : Bool) (listing : List String) : Nat :=
  if !dirExists then 0
  else
    listing.foldl
      (fun max_version f =>
        match node_version_of_filename f with
        | some v => max max_version v
        | none => max_version)
      0

/-- The decision prefix of `node_update.rs::check_and_update`: no-op
(`upToDate`, no download) when `remote ≤ current`. -/
def check_decision (remote_version : Nat) (dirExists : Bool) (listing : List String) :
    UpdateManager.CheckOutcome :=
  if remote_version ≤ get_current_node_version dirExists listing then
    UpdateManager.CheckOutcome.upToDate
  else UpdateManager.CheckOutcome.proceed

end NodeUpdate

/-! ## Probe self-update (`src/probe_update.rs`) -/

namespace ProbeUpdate

/-- The loop-body test of `probe_update.rs::get_current_probe_version`:
`moonblokz_probe_*` pattern, trim, `parse::<u32>`. -/
def probe_version_of_filename (f : String) : Option Nat :=
  if rustStartsWith f "moonblokz_probe_" then
    parse_u32 (trimStartMatches f "moonblokz_probe_")
  else none

/-- `probe_update.rs::get_current_probe_version`: when `deployed/` is absent
it is created and the version is 0; otherwise the maximum parseable version
over the listing, 0 if none. -/
def get_current_probe_version (dirExists : Bool) (listing : List String) : Nat :=
  if !dirExists then 0
  else
    listing.foldl
      (fun max_version f =>
        match probe_version_of_filename f with
        | some v => max max_version v
        | none => max_version)
      0

/-- `probe_update.rs::check_and_update` given the fetched descriptor `vi`,
the state of `deployed/` and the downloaded bytes: no-op when
`vi.version ≤ current`; otherwise verify `format!("{:08x}", crc)` against
the descriptor string and bail on mismatch BEFORE any filesystem step;
otherwise write the binary, mark executable, remove other
`moonblokz_probe_*` files, rewrite `start.sh` and reboot. Returns the
result and the action trace. -/
def check_and_update (vi : VersionInfo) (dirExists : Bool) (listing : List String)
    (binary_data : List Nat) : Except String Unit × List FsAction :=
  let pre := if !dirExists then [FsAction.createDirAll "deployed"] else []
  let current_version := get_current_probe_version dirExists listing
  if vi.version ≤ current_version then (Except.ok (), pre)
  else
    let crc_hex := toHex8 (crc32fast_hash binary_data)
    if crc_hex ≠ vi.crc32 then (Except.error "CRC32 mismatch", pre)
    else
      let new_name := "moonblokz_probe_" ++ toString vi.version
      let new_binary_path := "deployed/" ++ new_name
      let removals :=
        (listing.filter fun f => rustStartsWith f "moonblokz_probe_" && f ≠ new_name).map
          fun f => FsAction.removeFile ("deployed/" ++ f)
      (Except.ok (),
        pre ++ [FsAction.createDirAll "deployed",
                FsAction.writeFile new_binary_path,
                FsAction.setPermissions new_binary_path]
            ++ removals
            ++ [FsAction.writeFile "start.sh", FsAction.setPermissions "start.sh",
                FsAction.reboot])

end ProbeUpdate

/-! ## Lemmas and claim theorems -/

theorem logBuffer_foldl_push_entries (N : Nat) (hN : 1 ≤ N) (ps : List LogEntry) :
    ∀ b : LogBuffer, b.max_size = N → b.entries.length ≤ N →
      (List.foldl LogBuffer.push b ps).entries =
        (b.entries ++ ps).drop (b.entries.length + ps.length - N) := by
  induction ps with
  | nil =>
    intro b hmax hlen
    simp only [List.foldl_nil, List.append_nil, List.length_nil, Nat.add_zero]
    rw [Nat.sub_eq_zero_of_le hlen, List.drop_zero]
  | cons p ps ih =>
    intro b hmax hlen
    rw [List.foldl_cons]
    by_cases hfull : N ≤ b.entries.length
    · have hlenN : b.entries.length = N := le_antisymm hlen hfull
      have hne : b.entries ≠ [] := by
        intro h
        rw [h] at hlenN
        simp at hlenN
        omega
      obtain ⟨hd, tl, hbe⟩ := List.exists_cons_of_ne_nil hne
      have htl : tl.length + 1 = N := by
        have := hlenN
        rw [hbe] at this
        simpa using this
      have hpush : b.push p = ⟨b.entries.tail ++ [p], b.max_size⟩ := by
        rw [LogBuffer.push, if_pos (by omega)]
      rw [hpush]
      have h2 : (b.entries.tail ++ [p] : List LogEntry).length ≤ N := by
        rw [hbe]
        simp
        omega
      rw [ih ⟨b.entries.tail ++ [p], b.max_size⟩ hmax h2]
      show (b.entries.tail ++ [p] ++ ps).drop ((b.entries.tail ++ [p]).length + ps.length - N) = _
      rw [hbe]
      have i1 : ((hd :: tl).tail ++ [p] : List LogEntry).length + ps.length - N = ps.length := by
        simp
        omega
      have i2 : (hd :: tl : List LogEntry).length + (p :: ps).length - N = ps.length + 1 := by
        simp
        omega
      rw [i1, i2]
      have e1 : (hd :: tl).tail ++ [p] ++ ps = tl ++ p :: ps := by simp
      have e2 : (hd :: tl) ++ p :: ps = hd :: (tl ++ p :: ps) := by simp
      rw [e1, e2, List.drop_succ_cons]
    · have hpush : b.push p = ⟨b.entries ++ [p], b.max_size⟩ := by
        rw [LogBuffer.push, if_neg (by omega)]
      rw [hpush]
      have h2 : (b.entries ++ [p] : List LogEntry).length ≤ N := by
        simp
        omega
      rw [ih ⟨b.entries ++ [p], b.max_size⟩ hmax h2]
      show (b.entries ++ [p] ++ ps).drop ((b.entries ++ [p]).length + ps.length - N) = _
      have e : b.entries ++ [p] ++ ps = b.entries ++ p :: ps := by simp
      rw [e]
      congr 1
      simp
      omega

/-- C1: for every capacity `N ≥ 1` and every sequence of pushes into
`LogBuffer::new(N)`, the length never exceeds `N`, and the buffer holds
exactly the last `N` entries of the push sequence in arrival order
(`drop (len - N)`); in particular a push into a full buffer evicts the
oldest entry and never rejects the newest. The claim's unrestricted
quantification over every capacity fails at `N = 0`
(see the counterexample), which forces the `N ≥ 1` bound. -/
theorem c1_buffer_eviction (N : Nat) (hN : 1 ≤ N) (ps : List LogEntry) :
    (List.foldl LogBuffer.push (LogBuffer.new N) ps).entries.length ≤ N ∧
    (List.foldl LogBuffer.push (LogBuffer.new N) ps).entries = ps.drop (ps.length - N) := by
  have h := logBuffer_foldl_push_entries N hN ps (LogBuffer.new N) rfl (by simp [LogBuffer.new])
  have h' : (List.foldl LogBuffer.push (LogBuffer.new N) ps).entries = ps.drop (ps.length - N) := by
    simpa [LogBuffer.new] using h
  refine ⟨?_, h'⟩
  rw [h', List.length_drop]
  omega

/-- C1 witness: capacity 2, three pushes; the buffer keeps the last two
entries in order. -/
theorem c1_buffer_eviction_witness :
    (List.foldl LogBuffer.push (LogBuffer.new 2)
        [⟨"t1", "m1"⟩, ⟨"t2", "m2"⟩, ⟨"t3", "m3"⟩]).entries.length ≤ 2 ∧
    (List.foldl LogBuffer.push (LogBuffer.new 2)
        [⟨"t1", "m1"⟩, ⟨"t2", "m2"⟩, ⟨"t3", "m3"⟩]).entries =
      ([⟨"t1", "m1"⟩, ⟨"t2", "m2"⟩, ⟨"t3", "m3"⟩] : List LogEntry).drop
        (([⟨"t1", "m1"⟩, ⟨"t2", "m2"⟩, ⟨"t3", "m3"⟩] : List LogEntry).length - 2) :=
  c1_buffer_eviction 2 (by decide) [⟨"t1", "m1"⟩, ⟨"t2", "m2"⟩, ⟨"t3", "m3"⟩]

/-- C1 counterexample: with capacity `N = 0`, a single push still stores the
entry (`pop_front` on the empty deque is a no-op and `push_back` always
runs), so the buffer's length exceeds its capacity, refuting the claim's
"for every capacity N". -/
theorem c1_zero_capacity_counterexample :
    ¬ ((LogBuffer.new 0).push ⟨"t", "m"⟩).entries.length ≤ 0 := by decide

/-- C2: code bug, evaluated at the failing input. With snapshot
`S = [s1, s2]` (capacity 10), concurrent appends `A = [a1]`, and a failing
HTTP status (500), `sync_telemetry` re-queues via `push` (which appends at
the BACK) over `logs.into_iter().rev()`, so the final buffer is
`A ++ reverse S = [a1, s2, s1]` — not `S ++ A = [s1, s2, a1]` as the claim
(re-queue at the front, original order first) requires. -/
theorem c2_requeue_order_bug :
    (sync_telemetry ⟨[⟨"t1", "s1"⟩, ⟨"t2", "s2"⟩], 10⟩ [⟨"t3", "a1"⟩] 500).finalBuffer.entries =
      [⟨"t3", "a1"⟩, ⟨"t2", "s2"⟩, ⟨"t1", "s1"⟩] ∧
    ([⟨"t3", "a1"⟩, ⟨"t2", "s2"⟩, ⟨"t1", "s1"⟩] : List LogEntry) ≠
      [⟨"t1", "s1"⟩, ⟨"t2", "s2"⟩, ⟨"t3", "a1"⟩] := by decide

/-- C8 (amended): an upload cycle performs the HTTP POST exactly when the
snapshot is nonempty; an empty buffer short-circuits with no request (so no
commands can be received on such a cycle). -/
theorem c8_post_iff_nonempty (buf : LogBuffer) (appends : List LogEntry) (status : Nat) :
    (sync_telemetry buf appends status).didPost = (buf.len != 0) := by
  by_cases h : buf.len = 0
  · simp [sync_telemetry, h]
  · rw [sync_telemetry, if_neg h]
    by_cases hs : status = 200 <;> simp [hs, h]

/-- C8 counterexample: with an empty buffer the cycle returns before the
POST (`"No logs to sync"` early return), refuting "performs the HTTP POST
even when the buffer snapshot is empty". -/
theorem c8_empty_snapshot_counterexample :
    ¬ ((sync_telemetry (LogBuffer.new 10) [] 200).didPost = true) := by decide

theorem getLast?_cons_ne {α : Type} (a : α) (l : List α) (h : l ≠ []) :
    (a :: l).getLast? = l.getLast? := by
  cases l with
  | nil => exact absurd rfl h
  | cons x xs => rfl

theorem getLast?_append_right {α : Type} (l₁ l₂ : List α) (h : l₂ ≠ []) :
    (l₁ ++ l₂).getLast? = l₂.getLast? := by
  induction l₁ with
  | nil => rfl
  | cons a l₁ ih =>
    rw [List.cons_append, getLast?_cons_ne a (l₁ ++ l₂) (by simp [h]), ih]

theorem handleEvents_append_nonTerminal :
    ∀ (pre rest : List ReadEvent), pre.all ReadEvent.nonTerminal = true →
      handleEvents (pre ++ rest) =
        ((handleEvents pre).1 ++ (handleEvents rest).1, (handleEvents rest).2) := by
  intro pre
  induction pre with
  | nil => intro rest _; simp [handleEvents]
  | cons e pre ih =>
    intro rest hall
    rw [List.all_cons, Bool.and_eq_true] at hall
    obtain ⟨he, hpre⟩ := hall
    cases e with
    | readEof => simp [ReadEvent.nonTerminal] at he
    | readErr => simp [ReadEvent.nonTerminal] at he
    | readLine s =>
      rw [List.cons_append]
      show (let line := rustTrimEnd s
            let msgs := if line.data.isEmpty then [] else [UsbMessage.LineReceived line]
            let r := handleEvents (pre ++ rest)
            (msgs ++ r.1, r.2)) = _
      rw [ih rest hpre]
      show (_ ++ ((handleEvents pre).1 ++ (handleEvents rest).1), (handleEvents rest).2) = _
      rw [handleEvents]
      simp [List.append_assoc]
    | sendCmd c ok =>
      have hok : ok = true := by simpa [ReadEvent.nonTerminal] using he
      subst hok
      rw [List.cons_append]
      show handleEvents (pre ++ rest) = _
      rw [ih rest hpre]
      rfl

theorem handleEvents_nonTerminal_no_disconnect :
    ∀ pre : List ReadEvent, pre.all ReadEvent.nonTerminal = true →
      UsbMessage.Disconnected ∉ (handleEvents pre).1 := by
  intro pre
  induction pre with
  | nil => intro _; simp [handleEvents]
  | cons e pre ih =>
    intro hall
    rw [List.all_cons, Bool.and_eq_true] at hall
    obtain ⟨he, hpre⟩ := hall
    cases e with
    | readEof => simp [ReadEvent.nonTerminal] at he
    | readErr => simp [ReadEvent.nonTerminal] at he
    | readLine s =>
      show UsbMessage.Disconnected ∉
        ((if (rustTrimEnd s).data.isEmpty then [] else [UsbMessage.LineReceived (rustTrimEnd s)]) ++
          (handleEvents pre).1)
      intro hmem
      rcases List.mem_append.mp hmem with h | h
      · by_cases hb : (rustTrimEnd s).data.isEmpty <;> simp [hb] at h
      · exact ih hpre h
    | sendCmd c ok =>
      have hok : ok = true := by simpa [ReadEvent.nonTerminal] using he
      subst hok
      exact ih hpre

/-- C9 (amended): a read returning zero bytes (EOF) is treated as a normal
disconnect — `connect_and_handle` returns `Ok`, the backoff resets to the
initial 1 s and NO `Disconnected` message is emitted before reconnecting —
whereas an error-caused transition back to disconnected emits `Disconnected`
(as the last message of the iteration) before the backoff sleep and
reconnection attempt. The original claim's "every transition ... emits a
Disconnected message" fails on the clean-EOF path (see counterexample). -/
theorem c9_disconnect_semantics :
    (∀ (pre : List ReadEvent) (b : Nat), pre.all ReadEvent.nonTerminal = true →
      ∃ msgs, run_iteration true (pre ++ [ReadEvent.readEof]) b =
          some (msgs, INITIAL_BACKOFF_MS) ∧
        UsbMessage.Disconnected ∉ msgs) ∧
    (∀ (pre : List ReadEvent) (b : Nat), pre.all ReadEvent.nonTerminal = true →
      ∃ msgs, run_iteration true (pre ++ [ReadEvent.readErr]) b =
          some (msgs, min (b * 2) MAX_BACKOFF_MS) ∧
        msgs.getLast? = some UsbMessage.Disconnected) := by
  constructor
  · intro pre b hpre
    refine ⟨UsbMessage.Connected :: (handleEvents pre).1, ?_, ?_⟩
    · rw [run_iteration, if_pos rfl]
      have h := handleEvents_append_nonTerminal pre [ReadEvent.readEof] hpre
      rw [connect_and_handle]
      rw [h]
      simp [handleEvents]
    · intro hmem
      rcases List.mem_cons.mp hmem with h | h
      · exact UsbMessage.noConfusion h
      · exact handleEvents_nonTerminal_no_disconnect pre hpre h
  · intro pre b hpre
    refine ⟨UsbMessage.Connected :: (handleEvents pre).1 ++ [UsbMessage.Disconnected], ?_, ?_⟩
    · rw [run_iteration, if_pos rfl]
      have h := handleEvents_append_nonTerminal pre [ReadEvent.readErr] hpre
      rw [connect_and_handle]
      rw [h]
      simp [handleEvents]
    · exact getLast?_append_right _ _ (by simp)

/-- C9 witness: one received line, then EOF (clean disconnect, `Ok`, reset,
no `Disconnected`) and one received line, then a read error (`Disconnected`
emitted last, backoff doubled). -/
theorem c9_disconnect_semantics_witness :
    (∃ msgs, run_iteration true ([ReadEvent.readLine "x"] ++ [ReadEvent.readEof]) 1000 =
        some (msgs, INITIAL_BACKOFF_MS) ∧ UsbMessage.Disconnected ∉ msgs) ∧
    (∃ msgs, run_iteration true ([ReadEvent.readLine "x"] ++ [ReadEvent.readErr]) 1000 =
        some (msgs, min (1000 * 2) MAX_BACKOFF_MS) ∧
      msgs.getLast? = some UsbMessage.Disconnected) :=
  ⟨c9_disconnect_semantics.1 [ReadEvent.readLine "x"] 1000 (by decide),
   c9_disconnect_semantics.2 [ReadEvent.readLine "x"] 1000 (by decide)⟩

/-- C9 counterexample: a connection that ends in a clean EOF emits only
`Connected` — no `Disconnected` message is sent to consumers before the
next connection attempt, refuting "every transition from Connected back to
Disconnected ... emits a Disconnected message". -/
theorem c9_eof_counterexample :
    run_iteration true [ReadEvent.readEof] 1000 =
      some ([UsbMessage.Connected], INITIAL_BACKOFF_MS) ∧
    UsbMessage.Disconnected ∉ [UsbMessage.Connected] := by decide

theorem run_waits_replicate_getLast (k : Nat) :
    ∀ b : Nat, (run_waits b (List.replicate (k + 1) false)).getLast? =
      some ((fun x => min (x * 2) MAX_BACKOFF_MS)^[k] b) := by
  induction k with
  | zero =>
    intro b
    simp [run_waits, List.replicate]
  | succ k ih =>
    intro b
    rw [List.replicate_succ, run_waits]
    rw [getLast?_cons_ne b _ (by rw [List.replicate_succ, run_waits]; simp)]
    rw [ih (min (b * 2) MAX_BACKOFF_MS)]
    rw [Function.iterate_succ_apply]

theorem iterate_backoff (k : Nat) :
    (fun x => min (x * 2) MAX_BACKOFF_MS)^[k] INITIAL_BACKOFF_MS = min (2 ^ k * 1000) 60000 := by
  induction k with
  | zero => simp [INITIAL_BACKOFF_MS]
  | succ k ih =>
    rw [Function.iterate_succ_apply', ih]
    rw [pow_succ, MAX_BACKOFF_MS]
    generalize (2 : Nat) ^ k = m
    omega

theorem run_loop_waits_all_err :
    ∀ (errs : List (Bool × List ReadEvent)) (b : Nat),
      (∀ s ∈ errs, session_result s = some false) →
      run_loop_waits b errs = run_waits b (List.replicate errs.length false) := by
  intro errs
  induction errs with
  | nil => intro b _; rfl
  | cons s rest ih =>
    intro b h
    have hs : session_result s = some false := h s (List.mem_cons_self s rest)
    simp only [run_loop_waits, hs, List.length_cons, List.replicate_succ, run_waits]
    exact congrArg (List.cons b) (ih _ fun x hx => h x (List.mem_cons_of_mem s hx))

theorem run_loop_waits_reset (ok : Bool × List ReadEvent)
    (hok : session_result ok = some true) (tail : List (Bool × List ReadEvent)) :
    ∀ (pre : List (Bool × List ReadEvent)) (b : Nat),
      (∀ s ∈ pre, session_result s ≠ none) →
      ∃ w, run_loop_waits b (pre ++ ok :: tail) =
        w ++ run_loop_waits INITIAL_BACKOFF_MS tail := by
  intro pre
  induction pre with
  | nil =>
    intro b _
    refine ⟨[], ?_⟩
    simp only [List.nil_append, run_loop_waits, hok]
  | cons s pre ih =>
    intro b hpre
    have hs := hpre s (List.mem_cons_self s pre)
    rcases hres : session_result s with _ | flag
    · exact absurd hres hs
    · cases flag with
      | true =>
        obtain ⟨w, hw⟩ := ih INITIAL_BACKOFF_MS fun x hx => hpre x (List.mem_cons_of_mem s hx)
        refine ⟨w, ?_⟩
        simp only [List.cons_append, run_loop_waits, hres]
        exact hw
      | false =>
        obtain ⟨w, hw⟩ :=
          ih (min (b * 2) MAX_BACKOFF_MS) fun x hx => hpre x (List.mem_cons_of_mem s hx)
        refine ⟨b :: w, ?_⟩
        simp only [List.cons_append, run_loop_waits, hres]
        exact congrArg (List.cons b) hw

/-- C6 (amended): in the serial reconnection loop
(`usb_manager.rs::UsbManager::run`, identically `usb_collector.rs::run`),
after `k ≥ 1` consecutive `Err` returns of `connect_and_handle` — failed
opens, or successfully opened connections that die in an I/O error — since
process start or since the last CLEAN-EOF close (`Ok` return), the wait
before the next attempt equals `min(2^(k-1), 60)` seconds
(`1000 * min(2^(k-1), 60)` ms): 1 s first, doubling per failure, capped at
60 s. The backoff resets to the initial 1 s only on an `Ok` return;
merely establishing a successful new connection does not reset it, which
refutes the original claim's "on a successful new connection the backoff
resets to 1 s" (see the counterexample). -/
theorem c6_reconnect_backoff_corrected :
    (∀ (errs : List (Bool × List ReadEvent)) (k : Nat), 1 ≤ k → errs.length = k →
        (∀ s ∈ errs, session_result s = some false) →
        (run_loop_waits INITIAL_BACKOFF_MS errs).getLast? =
          some (1000 * min (2 ^ (k - 1)) 60)) ∧
    (∀ (pre errs : List (Bool × List ReadEvent)) (ok : Bool × List ReadEvent) (k : Nat),
        1 ≤ k → errs.length = k → session_result ok = some true →
        (∀ s ∈ pre, session_result s ≠ none) →
        (∀ s ∈ errs, session_result s = some false) →
        (run_loop_waits INITIAL_BACKOFF_MS (pre ++ ok :: errs)).getLast? =
          some (1000 * min (2 ^ (k - 1)) 60)) := by
  have hbase : ∀ (errs : List (Bool × List ReadEvent)) (k : Nat), 1 ≤ k → errs.length = k →
      (∀ s ∈ errs, session_result s = some false) →
      (run_loop_waits INITIAL_BACKOFF_MS errs).getLast? =
        some (1000 * min (2 ^ (k - 1)) 60) := by
    intro errs k hk hlen herrs
    rw [run_loop_waits_all_err errs INITIAL_BACKOFF_MS herrs, hlen]
    obtain ⟨j, rfl⟩ : ∃ j, k = j + 1 := ⟨k - 1, by omega⟩
    rw [run_waits_replicate_getLast j INITIAL_BACKOFF_MS, iterate_backoff j]
    have hj : j + 1 - 1 = j := by omega
    rw [hj]
    congr 1
    generalize (2 : Nat) ^ j = m
    omega
  refine ⟨hbase, ?_⟩
  intro pre errs ok k hk hlen hok hpre herrs
  have hne : run_loop_waits INITIAL_BACKOFF_MS errs ≠ [] := by
    cases errs with
    | nil => rw [List.length_nil] at hlen; omega
    | cons e rest =>
      have he := herrs e (List.mem_cons_self e rest)
      simp [run_loop_waits, he]
  obtain ⟨w, hw⟩ := run_loop_waits_reset ok hok errs pre INITIAL_BACKOFF_MS hpre
  rw [hw, getLast?_append_right _ _ hne]
  exact hbase errs k hk hlen herrs

/-- C6 witness: two failures from process start (an open-ok connection dying
in a read error, then a failed open) give a last wait of 2 s; and after a
failed open followed by a clean-EOF connection (`Ok`, the reset), a single
open-ok connection dying in a read error waits the reset 1 s. -/
theorem c6_reconnect_backoff_corrected_witness :
    (run_loop_waits INITIAL_BACKOFF_MS
        [(true, [ReadEvent.readErr]), (false, [])]).getLast? =
      some (1000 * min (2 ^ (2 - 1)) 60) ∧
    (run_loop_waits INITIAL_BACKOFF_MS
        ([(false, ([] : List ReadEvent))] ++
          (true, [ReadEvent.readEof]) :: [(true, [ReadEvent.readErr])])).getLast? =
      some (1000 * min (2 ^ (1 - 1)) 60) :=
  ⟨c6_reconnect_backoff_corrected.1 [(true, [ReadEvent.readErr]), (false, [])] 2
      (by decide) (by decide) (by decide),
   c6_reconnect_backoff_corrected.2 [(false, [])] [(true, [ReadEvent.readErr])]
      (true, [ReadEvent.readEof]) 1 (by decide) (by decide) (by decide) (by decide) (by decide)⟩

/-- C6 counterexample: two sessions that each open SUCCESSFULLY and then die
with a read error. The second session is a successful new connection, so
under the claim the backoff has reset and its failure (k = 1 consecutive
failure) must be followed by a `min(2^0, 60) = 1` s wait; the code instead
sleeps the stale doubled backoff, 2 s — the reset happens only on a
clean-EOF `Ok` return, never on establishing a connection. -/
theorem c6_no_reset_counterexample :
    run_loop_waits INITIAL_BACKOFF_MS
        [(true, [ReadEvent.readErr]), (true, [ReadEvent.readErr])] = [1000, 2000] ∧
    (2000 : Nat) ≠ 1000 * min (2 ^ (1 - 1)) 60 := by decide

/-- C5: the current upload interval is a pure function of wall-clock time
and the schedule (`types.rs::UpdateInterval::get_current_interval`, the
variant the spec collapses to): with both bounds set and `now` inside
`[start_time, end_time]` (and a nonzero cycle, without which the source's
`%` panics) it returns `active_period` when
`(now - start) mod (active + inactive) < active_period`, else
`inactive_period`; outside the window, or with an absent bound, it returns
`default_interval`. The claim's concrete triple (start=0, end=3600,
active=60, inactive=30 at now=10 / 70 / 5000) is included. -/
theorem c5_schedule_interval :
    (∀ (s : UpdateInterval) (now t0 t1 : Int), s.start_time = some t0 →
        s.end_time = some t1 → t0 ≤ now → now ≤ t1 →
        0 < s.active_period + s.inactive_period →
        s.get_current_interval now =
          some (if (now - t0).toNat % (s.active_period + s.inactive_period) < s.active_period
                then s.active_period else s.inactive_period)) ∧
    (∀ (s : UpdateInterval) (now t0 t1 : Int), s.start_time = some t0 →
        s.end_time = some t1 → (now < t0 ∨ t1 < now) →
        s.get_current_interval now = some s.default_interval) ∧
    (∀ (s : UpdateInterval) (now : Int), s.start_time = none ∨ s.end_time = none →
        s.get_current_interval now = some s.default_interval) ∧
    (∀ d : Nat,
      (UpdateInterval.mk (some 0) (some 3600) 60 30 d).get_current_interval 10 = some 60 ∧
      (UpdateInterval.mk (some 0) (some 3600) 60 30 d).get_current_interval 70 = some 30 ∧
      (UpdateInterval.mk (some 0) (some 3600) 60 30 d).get_current_interval 5000 = some d) := by
  refine ⟨?_, ?_, ?_, ?_⟩
  · intro s now t0 t1 hs he h1 h2 hc
    simp only [UpdateInterval.get_current_interval, hs, he]
    rw [if_pos ⟨h1, h2⟩, if_neg (by omega)]
    split <;> rfl
  · intro s now t0 t1 hs he h
    simp only [UpdateInterval.get_current_interval, hs, he]
    rw [if_neg (by rintro ⟨ha, hb⟩; omega)]
  · intro s now h
    rcases hst : s.start_time with _ | t0 <;> rcases het : s.end_time with _ | t1 <;>
        simp only [UpdateInterval.get_current_interval, hst, het]
    rcases h with h | h
    · rw [hst] at h; exact absurd h (by simp)
    · rw [het] at h; exact absurd h (by simp)
  · intro d
    refine ⟨?_, ?_, ?_⟩
    · simp only [UpdateInterval.get_current_interval]
      rw [if_pos ⟨by decide, by decide⟩, if_neg (by decide), if_pos (by decide)]
    · simp only [UpdateInterval.get_current_interval]
      rw [if_pos ⟨by decide, by decide⟩, if_neg (by decide), if_neg (by decide)]
    · simp only [UpdateInterval.get_current_interval]
      rw [if_neg (by rintro ⟨ha, hb⟩; exact absurd hb (by decide))]

/-- C5 witness: the in-window branch applied to the claim's concrete
schedule at `now = 70`. -/
theorem c5_schedule_interval_witness :
    (UpdateInterval.mk (some 0) (some 3600) 60 30 120).get_current_interval 70 =
      some (if ((70 : Int) - 0).toNat % (60 + 30) < 60 then 60 else 30) :=
  c5_schedule_interval.1 (UpdateInterval.mk (some 0) (some 3600) 60 30 120) 70 0 3600
    rfl rfl (by decide) (by decide) (by decide)

/-- C7: for `set_log_level`, `level` and `log_level` are interchangeable
aliases, matched case-insensitively: both produce `/LD` for `DEBUG` (in any
case mix), the choice of field name never changes the result, and any value
whose uppercasing is not one of TRACE/DEBUG/INFO/WARN/ERROR produces no
serial write (`none`, a warning only). -/
theorem c7_set_log_level_aliasing :
    execute_set_log_level ⟨"", "", 0, 0, "DEBUG", "", "", "", "", 0⟩ = some "/LD" ∧
    execute_set_log_level ⟨"", "", 0, 0, "", "DEBUG", "", "", "", 0⟩ = some "/LD" ∧
    execute_set_log_level ⟨"", "", 0, 0, "debug", "", "", "", "", 0⟩ = some "/LD" ∧
    execute_set_log_level ⟨"", "", 0, 0, "", "dEbUg", "", "", "", 0⟩ = some "/LD" ∧
    (∀ s : String,
      execute_set_log_level ⟨"", "", 0, 0, s, "", "", "", "", 0⟩ =
        execute_set_log_level ⟨"", "", 0, 0, "", s, "", "", "", 0⟩) ∧
    (∀ p : CommandParameters,
      rustToUppercase (if p.log_level ≠ "" then p.log_level else p.level) ∉
          (["TRACE", "DEBUG", "INFO", "WARN", "ERROR"] : List String) →
        execute_set_log_level p = none) := by
  refine ⟨by decide, by decide, by decide, by decide, ?_, ?_⟩
  · intro s
    by_cases h : s = "" <;> simp [execute_set_log_level, h]
  · intro p h
    simp only [List.mem_cons, List.not_mem_nil, or_false, not_or] at h
    obtain ⟨h1, h2, h3, h4, h5⟩ := h
    simp only [execute_set_log_level]
    rw [if_neg h1, if_neg h2, if_neg h3, if_neg h4, if_neg h5]

/-- C7 witness: an unrecognized level (`VERBOSE`) yields no serial write. -/
theorem c7_set_log_level_aliasing_witness :
    execute_set_log_level ⟨"", "", 0, 0, "VERBOSE", "", "", "", "", 0⟩ = none :=
  c7_set_log_level_aliasing.2.2.2.2.2 ⟨"", "", 0, 0, "VERBOSE", "", "", "", "", 0⟩
    (by decide)

/-- C10: in `log_collector.rs`, a received line is timestamped, filtered and
pushed only if it begins with one of the five level tags: an invalid line
leaves the buffer unchanged whatever the timestamp or filter (it is dropped
before either is consulted), `is_valid_log_line` holds exactly when one of
the five prefixes matches, and a valid line passing the filter (empty
filter, or substring match) is pushed. -/
theorem c10_level_tag_gate :
    (∀ (line timestamp filter : String) (log_buffer : LogBuffer),
        is_valid_log_line line = false →
        process_line line timestamp filter log_buffer = log_buffer) ∧
    (∀ line : String, is_valid_log_line line = true ↔
        (rustStartsWith line "[TRACE]" = true ∨ rustStartsWith line "[DEBUG]" = true ∨
         rustStartsWith line "[INFO]" = true ∨ rustStartsWith line "[WARN]" = true ∨
         rustStartsWith line "[ERROR]" = true)) ∧
    (∀ (line timestamp filter : String) (log_buffer : LogBuffer),
        is_valid_log_line line = true →
        (filter.data.isEmpty || strContains line filter) = true →
        process_line line timestamp filter log_buffer = log_buffer.push ⟨timestamp, line⟩) := by
  refine ⟨?_, ?_, ?_⟩
  · intro line timestamp filter log_buffer h
    simp [process_line, h]
  · intro line
    simp only [is_valid_log_line, Bool.or_eq_true]
    tauto
  · intro line timestamp filter log_buffer h1 h2
    simp [process_line, h1, h2]

/-- C10 witness: an untagged line is dropped; a tagged line passing the
empty filter is pushed. -/
theorem c10_level_tag_gate_witness :
    process_line "hello" "2024-01-01T00:00:00Z" "" (LogBuffer.new 5) = LogBuffer.new 5 ∧
    process_line "[INFO] boot" "2024-01-01T00:00:00Z" "" (LogBuffer.new 5) =
      (LogBuffer.new 5).push ⟨"2024-01-01T00:00:00Z", "[INFO] boot"⟩ :=
  ⟨c10_level_tag_gate.1 "hello" "2024-01-01T00:00:00Z" "" (LogBuffer.new 5) (by decide),
   c10_level_tag_gate.2.2 "[INFO] boot" "2024-01-01T00:00:00Z" "" (LogBuffer.new 5)
     (by decide) (by decide)⟩

theorem node_fold_acc_le (listing : List String) :
    ∀ acc : Nat, acc ≤ listing.foldl
      (fun max_version f =>
        match NodeUpdate.node_version_of_filename f with
        | some v => max max_version v
        | none => max_version) acc := by
  induction listing with
  | nil => intro acc; exact le_refl acc
  | cons g rest ih =>
    intro acc
    refine le_trans ?_ (ih _)
    rcases hg : NodeUpdate.node_version_of_filename g with _ | v <;> simp [hg]

theorem node_fold_mem (listing : List String) :
    ∀ (acc : Nat) (f : String) (v : Nat), f ∈ listing →
      NodeUpdate.node_version_of_filename f = some v →
      v ≤ listing.foldl
        (fun max_version f =>
          match NodeUpdate.node_version_of_filename f with
          | some v => max max_version v
          | none => max_version) acc := by
  induction listing with
  | nil => intro acc f v hmem; exact absurd hmem (List.not_mem_nil f)
  | cons g rest ih =>
    intro acc f v hmem hver
    rcases List.mem_cons.mp hmem with h | h
    · subst h
      rw [List.foldl_cons, hver]
      exact le_trans (le_max_right acc v) (node_fold_acc_le rest _)
    · exact ih _ f v h hver

/-- C4 (amended): each variant's `check_and_update` is a no-op whenever the
remote version is at most the current version THAT VARIANT computes, but
the two variants compute it differently. `node_update.rs` matches the
claim: current is the maximum parseable `moonblokz_*.uf2` version (every
parseable listed version is `≤` it) and 0 when the directory is absent.
`update_manager.rs::get_current_node_version`, however, returns the version
of the FIRST matching parseable filename in listing order — not the
maximum — and fails when the directory is absent, so the claim's
"maximum"-based no-op guarantee fails for it (see the counterexample). -/
theorem c4_version_check_amended :
    (∀ (remote : Nat) (listing : List String) (current : Nat),
        UpdateManager.get_current_node_version (some listing) = Except.ok current →
        remote ≤ current →
        UpdateManager.check_node_firmware remote (some listing) =
          Except.ok UpdateManager.CheckOutcome.upToDate) ∧
    (∀ (remote : Nat) (dirExists : Bool) (listing : List String),
        remote ≤ NodeUpdate.get_current_node_version dirExists listing →
        NodeUpdate.check_decision remote dirExists listing =
          UpdateManager.CheckOutcome.upToDate) ∧
    (∀ (listing : List String) (f : String) (v : Nat),
        f ∈ listing → NodeUpdate.node_version_of_filename f = some v →
        v ≤ NodeUpdate.get_current_node_version true listing) ∧
    (∀ listing : List String, NodeUpdate.get_current_node_version false listing = 0) := by
  refine ⟨?_, ?_, ?_, ?_⟩
  · intro remote listing current h hle
    have hs : UpdateManager.node_version_scan listing = current := by
      simpa [UpdateManager.get_current_node_version] using h
    simp [UpdateManager.check_node_firmware, UpdateManager.get_current_node_version, hs, hle]
  · intro remote dirExists listing h
    simp [NodeUpdate.check_decision, h]
  · intro listing f v hmem hver
    simpa [NodeUpdate.get_current_node_version] using node_fold_mem listing 0 f v hmem hver
  · intro listing
    simp [NodeUpdate.get_current_node_version]

/-- C4 witness: with `deployed/` containing only version 7, remote version 3
is a no-op in both variants; 7 is an upper bound of the listed versions; and
an absent directory yields current version 0 in `node_update.rs`. -/
theorem c4_version_check_witness :
    UpdateManager.check_node_firmware 3 (some ["moonblokz_7.uf2"]) =
      Except.ok UpdateManager.CheckOutcome.upToDate ∧
    NodeUpdate.check_decision 3 true ["moonblokz_7.uf2"] =
      UpdateManager.CheckOutcome.upToDate ∧
    7 ≤ NodeUpdate.get_current_node_version true ["moonblokz_7.uf2"] ∧
    NodeUpdate.get_current_node_version false ["moonblokz_9.uf2"] = 0 :=
  ⟨c4_version_check_amended.1 3 ["moonblokz_7.uf2"] 7 (by rfl) (by decide),
   c4_version_check_amended.2.1 3 true ["moonblokz_7.uf2"] (by decide),
   c4_version_check_amended.2.2.1 ["moonblokz_7.uf2"] "moonblokz_7.uf2" 7
     (by decide) (by rfl),
   c4_version_check_amended.2.2.2 ["moonblokz_9.uf2"]⟩

/-- C4 counterexample: with `deployed/` listing version 2 before version 5,
`update_manager.rs` computes current version 2 (first match, not the
maximum 5), so for remote version 3 the check PROCEEDS to download and
install even though `remote.version ≤` the maximum deployed version,
refuting the claim's "no-op whenever remote.version <= current_version
(the maximum parseable version)". -/
theorem c4_first_match_counterexample :
    UpdateManager.check_node_firmware 3 (some ["moonblokz_2.uf2", "moonblokz_5.uf2"]) =
      Except.ok UpdateManager.CheckOutcome.proceed ∧
    NodeUpdate.get_current_node_version true ["moonblokz_2.uf2", "moonblokz_5.uf2"] = 5 ∧
    3 ≤ 5 := by
  refine ⟨by rfl, by rfl, by decide⟩

theorem crc32Step_lt (c : Nat) (h : c < 2 ^ 32) : crc32Step c < 2 ^ 32 := by
  rw [crc32Step]
  split
  · exact Nat.xor_lt_two_pow (by omega) (by norm_num)
  · omega

theorem crc32Step_iterate_lt (k : Nat) : ∀ c, c < 2 ^ 32 → crc32Step^[k] c < 2 ^ 32 := by
  induction k with
  | zero => intro c h; exact h
  | succ k ih =>
    intro c h
    rw [Function.iterate_succ_apply]
    exact ih _ (crc32Step_lt c h)

theorem crc32fast_hash_le (data : List Nat) : crc32fast_hash data ≤ 4294967295 := by
  have hfold : ∀ (l : List Nat) (c : Nat), c < 2 ^ 32 →
      l.foldl (fun c b => crc32Step^[8] (c ^^^ b % 256)) c < 2 ^ 32 := by
    intro l
    induction l with
    | nil => intro c h; exact h
    | cons b t ih =>
      intro c hc
      rw [List.foldl_cons]
      apply ih
      apply crc32Step_iterate_lt
      have hb : b % 256 < 256 := Nat.mod_lt _ (by norm_num)
      exact Nat.xor_lt_two_pow hc (by omega)
  have h2 := hfold data 0xFFFFFFFF (by norm_num)
  have h3 : crc32fast_hash data < 2 ^ 32 := by
    rw [crc32fast_hash]
    exact Nat.xor_lt_two_pow h2 (by norm_num)
  have h4 : (2 : Nat) ^ 32 = 4294967296 := by norm_num
  omega

theorem natHexDigitsRev_spec :
    ∀ (fuel n : Nat), n ≤ fuel →
      ofDigitsLSB (natHexDigitsRev fuel n) = n ∧ ∀ d ∈ natHexDigitsRev fuel n, d < 16 := by
  intro fuel
  induction fuel with
  | zero =>
    intro n hn
    have : n = 0 := by omega
    subst this
    exact ⟨rfl, by simp [natHexDigitsRev]⟩
  | succ fuel ih =>
    intro n hn
    by_cases h0 : n = 0
    · subst h0
      simp [natHexDigitsRev, ofDigitsLSB]
    · have hdiv : n / 16 ≤ fuel := by
        have := Nat.div_lt_self (Nat.pos_of_ne_zero h0) (by norm_num : (1 : Nat) < 16)
        omega
      obtain ⟨hval, hdig⟩ := ih (n / 16) hdiv
      rw [natHexDigitsRev, if_neg h0]
      refine ⟨?_, ?_⟩
      · rw [ofDigitsLSB, hval]
        omega
      · intro d hd
        rcases List.mem_cons.mp hd with h | h
        · subst h; exact Nat.mod_lt _ (by norm_num)
        · exact hdig d h

theorem foldl16_reverse (L : List Nat) :
    ∀ a : Nat, List.foldl (fun x d => x * 16 + d) a L.reverse =
      a * 16 ^ L.length + ofDigitsLSB L := by
  induction L with
  | nil => intro a; simp [ofDigitsLSB]
  | cons d t ih =>
    intro a
    rw [List.reverse_cons, List.foldl_append, ih a]
    show (a * 16 ^ t.length + ofDigitsLSB t) * 16 + d = a * 16 ^ (t.length + 1) + ofDigitsLSB (d :: t)
    rw [ofDigitsLSB, pow_succ]
    ring

theorem foldl16_acc_le (L : List Nat) :
    ∀ acc : Nat, acc ≤ L.foldl (fun a d => a * 16 + d) acc := by
  induction L with
  | nil => intro acc; exact le_refl acc
  | cons d t ih =>
    intro acc
    rw [List.foldl_cons]
    exact le_trans (by omega) (ih (acc * 16 + d))

theorem hexDigitVal_hexChar : ∀ d : Nat, d < 16 → hexDigitVal (hexChar d) = some d := by decide

theorem hexChar_ne_plus : ∀ d : Nat, d < 16 → hexChar d ≠ '+' := by decide

theorem parseHexCore_map_hexChar (L : List Nat) :
    ∀ acc : Nat, (∀ d ∈ L, d < 16) →
      L.foldl (fun a d => a * 16 + d) acc ≤ 4294967295 →
      parseHexCore (L.map hexChar) acc = some (L.foldl (fun a d => a * 16 + d) acc) := by
  induction L with
  | nil => intro acc _ _; rfl
  | cons d t ih =>
    intro acc hd hle
    have hd16 : d < 16 := hd d (List.mem_cons_self d t)
    rw [List.foldl_cons] at hle ⊢
    have hacc : acc * 16 + d ≤ 4294967295 :=
      le_trans (foldl16_acc_le t (acc * 16 + d)) hle
    rw [List.map_cons, parseHexCore, hexDigitVal_hexChar d hd16]
    show (if acc * 16 + d ≤ 4294967295 then parseHexCore (t.map hexChar) (acc * 16 + d)
          else none) = _
    rw [if_pos hacc]
    exact ih (acc * 16 + d) (fun x hx => hd x (List.mem_cons_of_mem d hx)) hle

theorem parseHexCore_replicate_zero :
    ∀ (k : Nat) (rest : List Char),
      parseHexCore (List.replicate k '0' ++ rest) 0 = parseHexCore rest 0 := by
  intro k
  induction k with
  | zero => intro rest; rfl
  | succ k ih =>
    intro rest
    rw [List.replicate_succ, List.cons_append, parseHexCore]
    have h0 : hexDigitVal '0' = some 0 := by decide
    rw [h0]
    show (if 0 * 16 + 0 ≤ 4294967295 then parseHexCore (List.replicate k '0' ++ rest) (0 * 16 + 0)
          else none) = _
    rw [if_pos (by norm_num)]
    exact ih rest

theorem fromStrRadix16_toHex8 (n : Nat) (h : n ≤ 4294967295) :
    fromStrRadix16 (toHex8 n) = some n := by
  obtain ⟨hval, hdig⟩ := natHexDigitsRev_spec n n (le_refl n)
  have hdata : (toHex8 n).data =
      List.replicate (8 - ((natHexDigitsRev n n).reverse.map hexChar).length) '0' ++
        (natHexDigitsRev n n).reverse.map hexChar := rfl
  have hne : ∀ c ∈ (toHex8 n).data, c ≠ '+' := by
    intro c hc
    rw [hdata] at hc
    rcases List.mem_append.mp hc with h | h
    · rw [List.eq_of_mem_replicate h]
      decide
    · obtain ⟨d, hd, rfl⟩ := List.mem_map.mp h
      exact hexChar_ne_plus d (hdig d (List.mem_reverse.mp hd))
  have hpos : 0 < (toHex8 n).data.length := by
    rw [hdata, List.length_append, List.length_replicate]
    omega
  have hnonempty : (toHex8 n).data ≠ [] := by
    intro hnil
    rw [hnil] at hpos
    simp at hpos
  have hhead : ¬ ((toHex8 n).data.head? = some '+') := by
    obtain ⟨c, rest, hcr⟩ := List.exists_cons_of_ne_nil hnonempty
    rw [hcr]
    intro hcon
    have : c = '+' := by simpa using hcon
    exact hne c (by rw [hcr]; exact List.mem_cons_self c rest) this
  rw [fromStrRadix16]
  show (let ds := if (toHex8 n).data.head? = some '+' then (toHex8 n).data.tail
                  else (toHex8 n).data
        if ds.isEmpty then none else parseHexCore ds 0) = some n
  rw [if_neg hhead]
  rw [if_neg (by simp [List.isEmpty_iff, hnonempty])]
  rw [hdata, parseHexCore_replicate_zero]
  have hrev : ∀ d ∈ (natHexDigitsRev n n).reverse, d < 16 := by
    intro d hd
    exact hdig d (List.mem_reverse.mp hd)
  have hfold : (natHexDigitsRev n n).reverse.foldl (fun a d => a * 16 + d) 0 = n := by
    have hf := foldl16_reverse (natHexDigitsRev n n) 0
    rw [hval] at hf
    simpa using hf
  rw [parseHexCore_map_hexChar (natHexDigitsRev n n).reverse 0 hrev (by rw [hfold]; exact h)]
  rw [hfold]

theorem toHex8_ne_of_parse_ne (n : Nat) (hn : n ≤ 4294967295) (s : String)
    (h : fromStrRadix16 s ≠ some n) : toHex8 n ≠ s := by
  intro he
  apply h
  rw [← he]
  exact fromStrRadix16_toHex8 n hn

/-- C3: checksum gate. If the CRC32 computed over the downloaded bytes does
not match the descriptor's checksum interpreted as hexadecimal
(`u32::from_str_radix(_, 16)` of `vi.crc32` is not the computed hash —
including an unparseable field), then: `probe_update.rs::check_and_update`
(when an update would otherwise proceed, i.e. current < remote) fails for
the cycle with no install/deploy/removal action performed; and
`update_manager.rs::perform_node_firmware_update` fails with an EMPTY
action trace — no temp write, no `/BS`, no mount, no copy to a device, no
rename into `deployed/`. -/
theorem c3_checksum_gate (vi : VersionInfo) (data : List Nat)
    (hmis : fromStrRadix16 vi.crc32 ≠ some (crc32fast_hash data)) :
    (∀ (dirExists : Bool) (listing : List String),
        ProbeUpdate.get_current_probe_version dirExists listing < vi.version →
        (ProbeUpdate.check_and_update vi dirExists listing data).1 =
          Except.error "CRC32 mismatch" ∧
        ∀ a ∈ (ProbeUpdate.check_and_update vi dirExists listing data).2,
          a.installish = false) ∧
    (∀ (env : UpdateManager.NodeEnv) (listing : List String),
        (∃ e, (UpdateManager.perform_node_firmware_update vi data env listing).1 =
            Except.error e) ∧
        (UpdateManager.perform_node_firmware_update vi data env listing).2 = []) := by
  have hlt : crc32fast_hash data ≤ 4294967295 := crc32fast_hash_le data
  have hhex : toHex8 (crc32fast_hash data) ≠ vi.crc32 :=
    toHex8_ne_of_parse_ne _ hlt _ hmis
  constructor
  · intro dirExists listing hcur
    have hred : ProbeUpdate.check_and_update vi dirExists listing data =
        (Except.error "CRC32 mismatch",
          if !dirExists then [FsAction.createDirAll "deployed"] else []) := by
      rw [ProbeUpdate.check_and_update]
      show (if vi.version ≤ ProbeUpdate.get_current_probe_version dirExists listing then _
            else _) = _
      rw [if_neg (by omega)]
      show (if toHex8 (crc32fast_hash data) ≠ vi.crc32 then _ else _) = _
      rw [if_pos hhex]
    rw [hred]
    refine ⟨rfl, ?_⟩
    intro a ha
    cases dirExists <;> simp at ha
    rw [ha]
    rfl
  · intro env listing
    rcases hp : fromStrRadix16 vi.crc32 with _ | expected
    · have hred : UpdateManager.perform_node_firmware_update vi data env listing =
          (Except.error "Invalid CRC32 format in version.json", []) := by
        rw [UpdateManager.perform_node_firmware_update, hp]
      rw [hred]
      exact ⟨⟨_, rfl⟩, rfl⟩
    · have hne : crc32fast_hash data ≠ expected := by
        intro he
        exact hmis (by rw [hp, he])
      have hred : UpdateManager.perform_node_firmware_update vi data env listing =
          (Except.error "CRC32 mismatch", []) := by
        rw [UpdateManager.perform_node_firmware_update, hp]
        show (if crc32fast_hash data ≠ expected then _ else _) = _
        rw [if_pos hne]
      rw [hred]
      exact ⟨⟨_, rfl⟩, rfl⟩

/-- C3 witness: descriptor `{version 1, crc32 "deadbeef"}` against an empty
download (whose CRC32 is 0): both update paths fail with no install
action. -/
theorem c3_checksum_gate_witness :
    ((ProbeUpdate.check_and_update ⟨1, "deadbeef"⟩ true [] []).1 =
        Except.error "CRC32 mismatch" ∧
      ∀ a ∈ (ProbeUpdate.check_and_update ⟨1, "deadbeef"⟩ true [] []).2,
        a.installish = false) ∧
    ((∃ e, (UpdateManager.perform_node_firmware_update ⟨1, "deadbeef"⟩ []
          ⟨none, true, true, true, true⟩ []).1 = Except.error e) ∧
      (UpdateManager.perform_node_firmware_update ⟨1, "deadbeef"⟩ []
          ⟨none, true, true, true, true⟩ []).2 = []) := by
  have h := c3_checksum_gate ⟨1, "deadbeef"⟩ [] (by decide)
  exact ⟨h.1 true [] (by decide), h.2 ⟨none, true, true, true, true⟩ []⟩
